import Mathlib

set_option allowUnsafeReducibility true
attribute [local semireducible] Rat.mul Rat.add Rat.sub Rat.div Rat.inv

/-!
Verification development for the MCDA patient-prioritisation engine
(`notebooks/codefile_afternoon.py`).

The Python source is shallowly embedded below.  Numeric cell values are
modelled as `Option ℚ` (`none` plays the role of a missing value / NaN:
it propagates through arithmetic and is what `dropna` / `fillna` act on).
Exceptions raised by the Python code are modelled with `Except MCDAError`.
-/

/-- A dataframe row.  The loader guarantees the typed content of the four
semantic columns (`Speciality`, `Complexity`, `Acuity`, `Vitals Trend`);
`Complexity` and `Acuity` are numeric and may be missing (NaN). -/
structure PatientRow where
  speciality : String
  complexity : Option ℚ
  acuity : Option ℚ
  vitals : String
deriving Repr, DecidableEq, Inhabited

/-- A dataframe: its column-name schema (`df.columns`) plus the typed rows.
The schema list is what the source's required-column check inspects. -/
structure DataFrame where
  cols : List String
  rows : List PatientRow
deriving Repr, DecidableEq, Inhabited

/-- Output row: the input row's fields plus the columns added by
`compute_mcda_scores` (`MCDA_score`, `mcda_rank_within_Speciality`,
`tie_breaker`). -/
structure ScoredRecord where
  speciality : String
  complexity : Option ℚ
  acuity : Option ℚ
  vitals : String
  MCDA_score : ℚ
  mcda_rank_within_Speciality : ℕ
  tie_breaker : String
deriving Repr, DecidableEq, Inhabited

/-- The exceptions the source can raise, one constructor per raise site:
`ValueError(f"Input df is missing required columns: {missing}")` (line 89),
`ValueError('Sum of weights must be > 0')` (line 96),
`KeyError` from `weights[...]` lookups (lines 125-127), and the
`astype(int)` failure on a NaN rank (line 132). -/
inductive MCDAError where
  | schemaError (missing : List String)
  | invalidWeightError
  | keyError (k : String)
  | intCastError
deriving Repr, DecidableEq

/-- Python dict access / `.map` lookup on a dict literal (insertion order,
first match; dict keys are unique). -/
def dlookup (k : String) : List (String × ℚ) → Option ℚ
  | [] => none
  | p :: t => if p.1 = k then some p.2 else dlookup k t

/-- `DEFAULT_VITALS_ORDER` (source lines 33-37). -/
def DEFAULT_VITALS_ORDER : List (String × ℚ) :=
  [("Deteriorating", 1), ("Stable", 1/2), ("Improving", 0)]

/-- Default weights substituted when `weights is None` (source line 92). -/
def DEFAULT_WEIGHTS : List (String × ℚ) :=
  [("complexity", 1/2), ("acuity", 3/10), ("vitals", 1/5)]

/-- `valid.min()` over a list of present values. -/
def listMin : List ℚ → Option ℚ
  | [] => none
  | x :: t =>
    match listMin t with
    | none => some x
    | some m => some (min x m)

/-- `valid.max()` over a list of present values. -/
def listMax : List ℚ → Option ℚ
  | [] => none
  | x :: t =>
    match listMax t with
    | none => some x
    | some m => some (max x m)

/-- `normalize_series` (source lines 40-54): min-max normalize to [0,1];
constant series become 0.5 at every present position; missing entries stay
missing; an all-missing series is returned unchanged.
`s.dropna()` is `s.filterMap id`. -/
def normalize_series (s : List (Option ℚ)) : List (Option ℚ) :=
  match listMin (s.filterMap id), listMax (s.filterMap id) with
  | some mn, some mx =>
    if mn = mx then s.map (Option.map (fun _ => 1/2))
    else s.map (Option.map (fun x => (x - mn) / (mx - mn)))
  | _, _ => s

/-- Insertion step for the ascending sort used by the median. -/
def insertSorted (x : ℚ) : List ℚ → List ℚ
  | [] => [x]
  | y :: ys => if x ≤ y then x :: y :: ys else y :: insertSorted x ys

/-- Ascending insertion sort (the sort underlying `Series.median`). -/
def sortAsc (l : List ℚ) : List ℚ := l.foldr insertSorted []

/-- `Series.median(skipna=True)` applied to the present values: middle
element for odd length, mean of the two middle elements for even length,
undefined (NaN) for an empty list. -/
def pandasMedian (l : List ℚ) : Option ℚ :=
  if l = [] then none
  else
    let s := sortAsc l
    let n := l.length
    if n % 2 = 1 then some (s.getD (n / 2) 0)
    else some ((s.getD (n / 2 - 1) 0 + s.getD (n / 2) 0) / 2)

/-- Required-columns check (source lines 86-87):
`[c for c in required if c not in df.columns]` with the default column
names. -/
def missingCols (df : DataFrame) : List String :=
  (["Speciality", "Complexity", "Acuity", "Vitals Trend"]).filter
    (fun c => !(df.cols.contains c))

/-- `sum(weights.values())` (source line 94). -/
def weightTotal (ws : List (String × ℚ)) : ℚ := (ws.map Prod.snd).sum

/-- `{k: v / w_total for k, v in weights.items()}` (source line 97). -/
def normWeights (ws : List (String × ℚ)) : List (String × ℚ) :=
  ws.map (fun p => (p.1, p.2 / weightTotal ws))

/-- `df[vitals_col].map(vitals_map)` (source line 103): unmapped categories
become missing. -/
def rawVitals (rows : List PatientRow) (vm : List (String × ℚ)) :
    List (Option ℚ) :=
  rows.map (fun r => dlookup r.vitals vm)

/-- Source lines 105-107: if any raw vitals score is missing, fill every
missing one with the median of the known (mapped) scores over the whole
dataset; if that median is itself undefined (no known score at all),
`fillna(NaN)` changes nothing. -/
def fillVitals (raws : List (Option ℚ)) : List (Option ℚ) :=
  if raws.any Option.isNone then
    match pandasMedian (raws.filterMap id) with
    | some m => raws.map (fun o => some (o.getD m))
    | none => raws
  else raws

/-- The resolved per-record vitals scores (`_vitals_score_raw` column after
lines 103-107). -/
def vitalsScores (rows : List PatientRow) (vm : List (String × ℚ)) :
    List (Option ℚ) :=
  fillVitals (rawVitals rows vm)

/-- Number of positions before `i` holding group key `k` — the position of
record `i` inside its `groupby` group. -/
def countKeyBefore (keys : List String) (i : ℕ) (k : String) : ℕ :=
  ((keys.take i).filter (fun x => x = k)).length

/-- The sub-series of `vals` belonging to group `k`, in original order. -/
def selectGroup {α : Type} (keys : List String) (vals : List α) (k : String) :
    List α :=
  ((keys.zip vals).filter (fun p => p.1 = k)).map Prod.snd

/-- `df.groupby('Speciality')[col].transform(f)` / the group-wise
`apply(lambda s: ...)` of lines 111-112 and 120-121: apply `f` to each
group's sub-series and scatter the results back to the original positions
(`f` is length-preserving for the functions used). -/
def groupTransform (keys : List String) (vals : List (Option ℚ))
    (f : List (Option ℚ) → List (Option ℚ)) : List (Option ℚ) :=
  (List.range keys.length).map (fun i =>
    (f (selectGroup keys vals (keys.getD i ""))).getD
      (countKeyBefore keys i (keys.getD i "")) none)

/-- `s.fillna(s.median())` on one group (lines 120-121): missing entries
take the group's median of present values; when the median is undefined the
series is unchanged. -/
def fillNaGroupMedian (s : List (Option ℚ)) : List (Option ℚ) :=
  match pandasMedian (s.filterMap id) with
  | some m => s.map (fun o => some (o.getD m))
  | none => s

/-- Normalized complexity/acuity column (lines 110-115): per-Speciality
normalization when the flag is set, global otherwise. -/
def normColumn (keys : List String) (vals : List (Option ℚ))
    (withinGroup : Bool) : List (Option ℚ) :=
  if withinGroup then groupTransform keys vals normalize_series
  else normalize_series vals

/-- Lines 117-121: the normalized column after the per-Speciality
median fill of still-missing values. -/
def filledColumn (keys : List String) (vals : List (Option ℚ))
    (withinGroup : Bool) : List (Option ℚ) :=
  groupTransform keys (normColumn keys vals withinGroup) fillNaGroupMedian

/-- The linear additive MCDA combination (source lines 124-128). -/
def mcdaCombine (wc wa wv nc na vs : ℚ) : ℚ :=
  wc * nc + wa * na + wv * vs

/-- `rank(method='first', ascending=False)` within one group: the rank of
position `p` in value list `v` is one plus the number of entries with a
strictly larger value plus the number of earlier entries with an equal
value. -/
def rankFirstDesc (v : List ℚ) (p : ℕ) : ℕ :=
  1 + ((List.range v.length).filter (fun q =>
    decide (v.getD q 0 > v.getD p 0 ∨ (v.getD q 0 = v.getD p 0 ∧ q < p)))).length

/-- NaN-aware string of a raw cell, for the `tie_breaker` column. -/
def cellStr : Option ℚ → String
  | none => "nan"
  | some q => toString q

/-- The `tie_breaker` explanation column (source lines 135-137), built from
the raw (non-normalized) values. -/
def tieBreaker (r : PatientRow) : String :=
  "Acuity=" ++ cellStr r.acuity ++ "|Complexity=" ++ cellStr r.complexity ++
    "|Vitals=" ++ r.vitals

/-- `astype(int)` on the rank column: succeeds only when every score (hence
every rank) is present; one missing value aborts the whole batch. -/
def allSome : List (Option ℚ) → Option (List ℚ)
  | [] => some []
  | none :: _ => none
  | some x :: rest => (allSome rest).map (fun l => x :: l)

/-- The per-record MCDA scores as options (`none` = NaN score): the
weighted combination is missing as soon as one input is missing. -/
def scoresOpt (nc na vs : List (Option ℚ)) (wc wa wv : ℚ) (n : ℕ) :
    List (Option ℚ) :=
  (List.range n).map (fun i =>
    match nc.getD i none, na.getD i none, vs.getD i none with
    | some x, some y, some z => some (mcdaCombine wc wa wv x y z)
    | _, _, _ => none)

/-- Assemble the output rows (lines 124-142): input rows in their original
order, each with its score, its within-Speciality rank and the explanation
string. -/
def buildOutput (rows : List PatientRow) (keys : List String)
    (scores : List ℚ) : List ScoredRecord :=
  (List.range rows.length).map (fun i =>
    let r := rows.getD i default
    { speciality := r.speciality
      complexity := r.complexity
      acuity := r.acuity
      vitals := r.vitals
      MCDA_score := scores.getD i 0
      mcda_rank_within_Speciality :=
        rankFirstDesc (selectGroup keys scores r.speciality)
          (countKeyBefore keys i r.speciality)
      tie_breaker := tieBreaker r })

/-- `compute_mcda_scores` (source lines 57-142).  Checks happen in the
order the Python interpreter reaches them: the required-column check, the
zero weight-sum check, the weight-key lookups and finally the integer cast
of the rank column (which fails exactly when some score is NaN). -/
def compute_mcda_scores (df : DataFrame)
    (weights : Option (List (String × ℚ)))
    (vitals_map : Option (List (String × ℚ)))
    (normalize_within_Speciality : Bool) :
    Except MCDAError (List ScoredRecord) :=
  if missingCols df ≠ [] then .error (.schemaError (missingCols df))
  else
    let ws := weights.getD DEFAULT_WEIGHTS
    if weightTotal ws = 0 then .error .invalidWeightError
    else
      let nws := normWeights ws
      let vm := vitals_map.getD DEFAULT_VITALS_ORDER
      let keys := df.rows.map (fun r => r.speciality)
      let vs := vitalsScores df.rows vm
      let nc := filledColumn keys (df.rows.map (fun r => r.complexity))
        normalize_within_Speciality
      let na := filledColumn keys (df.rows.map (fun r => r.acuity))
        normalize_within_Speciality
      match dlookup "complexity" nws with
      | none => .error (.keyError "complexity")
      | some wc =>
        match dlookup "acuity" nws with
        | none => .error (.keyError "acuity")
        | some wa =>
          match dlookup "vitals" nws with
          | none => .error (.keyError "vitals")
          | some wv =>
            match allSome (scoresOpt nc na vs wc wa wv df.rows.length) with
            | none => .error .intCastError
            | some scores => .ok (buildOutput df.rows keys scores)

instance {ε α : Type} [DecidableEq ε] [DecidableEq α] : DecidableEq (Except ε α) :=
  fun a b =>
    match a, b with
    | .ok x, .ok y =>
      if h : x = y then isTrue (by rw [h])
      else isFalse (fun hh => h (Except.ok.inj hh))
    | .error x, .error y =>
      if h : x = y then isTrue (by rw [h])
      else isFalse (fun hh => h (Except.error.inj hh))
    | .ok _, .error _ => isFalse (fun hh => Except.noConfusion hh)
    | .error _, .ok _ => isFalse (fun hh => Except.noConfusion hh)

/-- The full required schema, used by the example batches below. -/
def mcdaCols : List String := ["Speciality", "Complexity", "Acuity", "Vitals Trend"]

/-- A small well-formed example batch: two departments, distinct scores. -/
def exDF : DataFrame :=
  { cols := mcdaCols
    rows := [
      { speciality := "A", complexity := some 3, acuity := some 2, vitals := "Stable" },
      { speciality := "B", complexity := some 1, acuity := some 5, vitals := "Deteriorating" },
      { speciality := "A", complexity := some 5, acuity := some 1, vitals := "Improving" },
      { speciality := "A", complexity := some 3, acuity := some 2, vitals := "Stable" },
      { speciality := "B", complexity := some 2, acuity := some 4, vitals := "Unknown" }
    ] }

/-- Example batch whose schema lacks the Acuity column. -/
def exDFnoAcuity : DataFrame :=
  { cols := ["Speciality", "Complexity", "Vitals Trend"]
    rows := [] }


/-- C9: a batch whose schema lacks one or more of the required fields
(Speciality, Complexity, Acuity, Vitals Trend) makes `compute_mcda_scores`
fail — for every weight/vitals-map/flag configuration and regardless of the
row contents — with the schema error carrying exactly the list of missing
required fields. -/
theorem schemaError_on_missing_required_columns (df : DataFrame)
    (w vm : Option (List (String × ℚ))) (b : Bool)
    (h : missingCols df ≠ []) :
    compute_mcda_scores df w vm b =
      .error (.schemaError (missingCols df)) := by
  unfold compute_mcda_scores
  simp [h]

/-- Witness for C9: a schema without the Acuity column is rejected with a
schema error naming exactly "Acuity". -/
theorem schemaError_on_missing_required_columns_witness :
    missingCols exDFnoAcuity ≠ [] ∧
      compute_mcda_scores exDFnoAcuity none none true =
        .error (.schemaError ["Acuity"]) :=
  ⟨by decide,
   Eq.trans
     (schemaError_on_missing_required_columns exDFnoAcuity none none true
       (by decide))
     (by decide)⟩

/-- The all-negative weight mapping used to exhibit the weight-check gap. -/
def wAllNeg : List (String × ℚ) :=
  [("complexity", -1), ("acuity", -1), ("vitals", -1)]

/-- C2 (code bug): the source only guards `w_total == 0` although its own
error message says the sum "must be > 0".  A weight mapping whose raw
values sum to the negative number -3 is accepted and scored (no
InvalidWeightError), while the all-zero mapping is rejected. -/
theorem weight_check_accepts_negative_sum :
    weightTotal wAllNeg = -3 ∧
      (compute_mcda_scores exDF (some wAllNeg) none true).isOk = true ∧
      compute_mcda_scores exDF
          (some [("complexity", 0), ("acuity", 0), ("vitals", 0)]) none true =
        .error .invalidWeightError := by
  refine ⟨by decide, ?_, by decide⟩
  decide

/-- `getD` through a `map`, at an in-range index. -/
theorem getD_map_lt {α β : Type} (f : α → β) (dA : α) (dB : β) :
    ∀ (l : List α) (i : ℕ), i < l.length →
      (l.map f).getD i dB = f (l.getD i dA)
  | a :: t, 0, _ => by simp
  | a :: t, i + 1, h => by
    simp only [List.map_cons, List.getD_cons_succ]
    exact getD_map_lt f dA dB t i (by simpa using h)
  | [], i, h => absurd h (by simp)

/-- `getD` through a `map` over `List.range`. -/
theorem getD_range_map {β : Type} (f : ℕ → β) (dB : β) (n i : ℕ) (h : i < n) :
    ((List.range n).map f).getD i dB = f i := by
  rw [getD_map_lt f 0 dB _ i (by simpa using h)]
  congr 1
  rw [List.getD_eq_getElem?_getD, List.getElem?_range h]
  rfl

/-- C8: rankings are invariant under positive scaling of the weight
mapping: the weights {complexity: 2, acuity: 1, vitals: 1} produce exactly
the same output (scores, ranks, explanations) as
{complexity: 0.5, acuity: 0.25, vitals: 0.25} on every batch, because both
normalize to the same mapping before use. -/
theorem rank_invariant_under_weight_scaling (df : DataFrame)
    (vm : Option (List (String × ℚ))) (b : Bool) :
    compute_mcda_scores df
        (some [("complexity", 2), ("acuity", 1), ("vitals", 1)]) vm b =
      compute_mcda_scores df
        (some [("complexity", 1/2), ("acuity", 1/4), ("vitals", 1/4)]) vm b := by
  have hn : normWeights [("complexity", (2:ℚ)), ("acuity", 1), ("vitals", 1)] =
      normWeights [("complexity", (1:ℚ)/2), ("acuity", 1/4), ("vitals", 1/4)] := by
    decide
  have h2 : weightTotal [("complexity", (2:ℚ)), ("acuity", 1), ("vitals", 1)] = 4 := by
    decide
  have h1 : weightTotal [("complexity", (1:ℚ)/2), ("acuity", 1/4), ("vitals", 1/4)] = 1 := by
    decide
  unfold compute_mcda_scores
  simp only [Option.getD_some, hn, h2, h1]
  norm_num

theorem listMin_mem : ∀ {l : List ℚ} {m : ℚ}, listMin l = some m → m ∈ l := by
  intro l
  induction l with
  | nil => intro m h; simp [listMin] at h
  | cons x t ih =>
    intro m h
    unfold listMin at h
    cases ht : listMin t with
    | none => rw [ht] at h; simp at h; simp [h]
    | some mt =>
      rw [ht] at h
      simp at h
      rcases min_choice x mt with hc | hc
      · rw [hc] at h; simp [h]
      · rw [hc] at h; exact List.mem_cons_of_mem x (ih (h ▸ ht))

theorem listMin_le : ∀ {l : List ℚ} {m : ℚ}, listMin l = some m →
    ∀ x ∈ l, m ≤ x := by
  intro l
  induction l with
  | nil => intro m _ x hx; simp at hx
  | cons a t ih =>
    intro m h x hx
    unfold listMin at h
    cases ht : listMin t with
    | none =>
      rw [ht] at h
      simp at h
      cases t with
      | nil =>
        rcases List.mem_singleton.mp hx with rfl
        exact le_of_eq h.symm
      | cons b u => simp [listMin] at ht; cases hu : listMin u <;> simp [hu] at ht
    | some mt =>
      rw [ht] at h
      simp at h
      rcases List.mem_cons.mp hx with rfl | hxt
      · exact h ▸ min_le_left x mt
      · exact le_trans (h ▸ min_le_right a mt) (ih ht x hxt)

theorem listMax_mem : ∀ {l : List ℚ} {m : ℚ}, listMax l = some m → m ∈ l := by
  intro l
  induction l with
  | nil => intro m h; simp [listMax] at h
  | cons x t ih =>
    intro m h
    unfold listMax at h
    cases ht : listMax t with
    | none => rw [ht] at h; simp at h; simp [h]
    | some mt =>
      rw [ht] at h
      simp at h
      rcases max_choice x mt with hc | hc
      · rw [hc] at h; simp [h]
      · rw [hc] at h; exact List.mem_cons_of_mem x (ih (h ▸ ht))

theorem le_listMax : ∀ {l : List ℚ} {m : ℚ}, listMax l = some m →
    ∀ x ∈ l, x ≤ m := by
  intro l
  induction l with
  | nil => intro m _ x hx; simp at hx
  | cons a t ih =>
    intro m h x hx
    unfold listMax at h
    cases ht : listMax t with
    | none =>
      rw [ht] at h
      simp at h
      cases t with
      | nil =>
        rcases List.mem_singleton.mp hx with rfl
        exact le_of_eq h
      | cons b u => simp [listMax] at ht; cases hu : listMax u <;> simp [hu] at ht
    | some mt =>
      rw [ht] at h
      simp at h
      rcases List.mem_cons.mp hx with rfl | hxt
      · exact h ▸ le_max_left x mt
      · exact le_trans (ih ht x hxt) (h ▸ le_max_right a mt)

theorem listMin_eq_none : ∀ {l : List ℚ}, listMin l = none ↔ l = [] := by
  intro l
  cases l with
  | nil => simp [listMin]
  | cons x t =>
    simp only [listMin]
    cases listMin t <;> simp

theorem getD_map_optionMap (g : ℚ → ℚ) (s : List (Option ℚ)) (i : ℕ) :
    (s.map (Option.map g)).getD i none = (s.getD i none).map g := by
  by_cases h : i < s.length
  · rw [getD_map_lt (Option.map g) none none s i h]
  · push_neg at h
    rw [List.getD_eq_getElem?_getD, List.getD_eq_getElem?_getD,
      List.getElem?_eq_none (by simpa using h), List.getElem?_eq_none h]
    rfl

/-- C5: `normalize_series` returns a same-length series; an all-missing
series is returned unchanged; when the present values have minimum `mn` and
maximum `mx` (computed over present values only), `mn = mx` holds exactly
when all present values are equal and then every present position becomes
0.5, otherwise every present value `x` becomes `(x - mn) / (mx - mn)`; in
every branch missing positions stay missing (the pointwise `Option.map`
forms below send `none` to `none`). -/
theorem normalize_series_spec (s : List (Option ℚ)) :
    (normalize_series s).length = s.length ∧
    (s.filterMap id = [] → normalize_series s = s) ∧
    (∀ mn mx, listMin (s.filterMap id) = some mn →
      listMax (s.filterMap id) = some mx →
      ((mn = mx ↔ ∀ a ∈ s.filterMap id, ∀ b ∈ s.filterMap id, a = b) ∧
       (mn = mx →
         ∀ i, (normalize_series s).getD i none
            = (s.getD i none).map (fun _ => 1/2)) ∧
       (mn ≠ mx →
         ∀ i, (normalize_series s).getD i none
            = (s.getD i none).map (fun x => (x - mn) / (mx - mn))))) := by
  refine ⟨?_, ?_, ?_⟩
  · unfold normalize_series
    cases h1 : listMin (s.filterMap id) with
    | none => cases h2 : listMax (s.filterMap id) <;> rfl
    | some mn =>
      cases h2 : listMax (s.filterMap id) with
      | none => rfl
      | some mx =>
        by_cases hc : mn = mx
        · simp [hc]
        · simp [hc]
  · intro h
    unfold normalize_series
    rw [h]
    rfl
  · intro mn mx h1 h2
    have hmem_mn := listMin_mem h1
    have hmem_mx := listMax_mem h2
    refine ⟨⟨fun he a ha b hb => ?_, fun hall => ?_⟩, fun he i => ?_,
      fun hne i => ?_⟩
    · have h1a := listMin_le h1 a ha
      have h2a := le_listMax h2 a ha
      have h1b := listMin_le h1 b hb
      have h2b := le_listMax h2 b hb
      have hA : a = mn := le_antisymm (he ▸ h2a) h1a
      have hB : b = mn := le_antisymm (he ▸ h2b) h1b
      rw [hA, hB]
    · exact hall mn hmem_mn mx hmem_mx
    · unfold normalize_series
      simp only [h1, h2, if_pos he]
      exact getD_map_optionMap (fun _ => 1/2) s i
    · unfold normalize_series
      simp only [h1, h2, if_neg hne]
      exact getD_map_optionMap (fun x => (x - mn) / (mx - mn)) s i

/-- Witness for C5: on [1, missing, 3] the last value normalizes to 1 and
the missing one stays missing; an all-missing series is unchanged. -/
theorem normalize_series_spec_witness :
    (normalize_series [some 1, none, some 3]).getD 2 none = some 1 ∧
      (normalize_series [some 1, none, some 3]).getD 1 none = none ∧
      normalize_series [none, (none : Option ℚ)] = [none, none] := by
  have h := (normalize_series_spec [some 1, none, some 3]).2.2 1 3
    (by decide) (by decide)
  refine ⟨?_, ?_, (normalize_series_spec [none, none]).2.1 (by decide)⟩
  · rw [h.2.2 (by decide) 2]; decide
  · rw [h.2.2 (by decide) 1]; decide

theorem pandasMedian_isSome {l : List ℚ} (h : l ≠ []) :
    ∃ m, pandasMedian l = some m := by
  unfold pandasMedian
  rw [if_neg h]
  by_cases hp : l.length % 2 = 1
  · refine ⟨(sortAsc l).getD (l.length / 2) 0, ?_⟩
    simp only [if_pos hp]
  · refine ⟨((sortAsc l).getD (l.length / 2 - 1) 0 +
      (sortAsc l).getD (l.length / 2) 0) / 2, ?_⟩
    simp only [if_neg hp]

theorem pandasMedian_nil : pandasMedian [] = none := rfl

/-- C6: whenever at least one record's vitals category is mapped, every
record with an unmapped category receives as its resolved vitals score the
pandas median of the mapped scores over the whole dataset. -/
theorem unmapped_vitals_resolve_to_dataset_median
    (rows : List PatientRow) (vm : List (String × ℚ)) (i : ℕ)
    (hmapped : (rawVitals rows vm).filterMap id ≠ [])
    (hi : i < rows.length)
    (hnone : dlookup (rows.getD i default).vitals vm = none) :
    (vitalsScores rows vm).getD i none
      = pandasMedian ((rawVitals rows vm).filterMap id) := by
  have hlen : (rawVitals rows vm).length = rows.length := by
    simp [rawVitals]
  have hlt : i < (rawVitals rows vm).length := hlen ▸ hi
  have hraw : (rawVitals rows vm).getD i none = none := by
    unfold rawVitals
    rw [getD_map_lt _ default none rows i hi]
    exact hnone
  have hgi : (rawVitals rows vm)[i] = none := by
    have h2 := hraw
    rwa [List.getD_eq_getElem?_getD, List.getElem?_eq_getElem hlt,
      Option.getD_some] at h2
  have hany : (rawVitals rows vm).any Option.isNone = true := by
    rw [List.any_eq_true]
    exact ⟨none, by rw [← hgi]; exact List.getElem_mem hlt, rfl⟩
  obtain ⟨m, hm⟩ := pandasMedian_isSome hmapped
  unfold vitalsScores fillVitals
  rw [if_pos hany, hm]
  rw [getD_map_lt _ none none _ i hlt, hraw]
  rfl

/-- The three-record batch of the concrete spec case: vitals values
Deteriorating (1.0), Stable (0.5) and the unmapped Unknown. -/
def exRowsVitals : List PatientRow :=
  [{ speciality := "A", complexity := some 1, acuity := some 1, vitals := "Deteriorating" },
   { speciality := "A", complexity := some 2, acuity := some 2, vitals := "Stable" },
   { speciality := "A", complexity := some 3, acuity := some 3, vitals := "Unknown" }]

/-- Witness for C6: in the batch [Deteriorating, Stable, Unknown] with the
default map the Unknown record's vitals score resolves to
median(1.0, 0.5) = 0.75. -/
theorem unmapped_vitals_resolve_to_dataset_median_witness :
    (vitalsScores exRowsVitals DEFAULT_VITALS_ORDER).getD 2 none
      = some (3/4) := by
  rw [unmapped_vitals_resolve_to_dataset_median exRowsVitals
    DEFAULT_VITALS_ORDER 2 (by decide) (by decide) (by decide)]
  decide

/-- When no vitals category is mappable, the fill step changes nothing:
the median of zero known scores is undefined, and filling with an
undefined value leaves every missing entry missing. -/
theorem fillVitals_of_no_known {raws : List (Option ℚ)}
    (h : raws.filterMap id = []) : fillVitals raws = raws := by
  unfold fillVitals
  rw [h, pandasMedian_nil]
  split <;> rfl

theorem getD_none_of_all_none {l : List (Option ℚ)}
    (h : ∀ o ∈ l, o = none) (i : ℕ) : l.getD i none = none := by
  rw [List.getD_eq_getElem?_getD]
  cases hg : l[i]? with
  | none => rfl
  | some o =>
    obtain ⟨hlt, hge⟩ := List.getElem?_eq_some_iff.mp hg
    exact h o (hge ▸ List.getElem_mem hlt) ▸ rfl

theorem allSome_eq_none_of_mem {l : List (Option ℚ)}
    (h : none ∈ l) : allSome l = none := by
  induction l with
  | nil => simp at h
  | cons x t ih =>
    rcases List.mem_cons.mp h with rfl | ht
    · rfl
    · cases x with
      | none => rfl
      | some v => unfold allSome; rw [ih ht]; rfl

/-- An example batch in which no record's vitals category is in the
default map. -/
def exDFallUnknown : DataFrame :=
  { cols := mcdaCols
    rows := [
      { speciality := "A", complexity := some 1, acuity := some 2, vitals := "Unknown" },
      { speciality := "A", complexity := some 2, acuity := some 1, vitals := "Weird" }] }

/-- Counterexample for C3: on a batch where no vitals category is mappable
the raw vitals scores stay missing (no 0.5 default is substituted) and the
whole scoring call aborts with the integer-cast error instead of
proceeding. -/
theorem all_unmapped_vitals_counterexample :
    (rawVitals exDFallUnknown.rows DEFAULT_VITALS_ORDER).all Option.isNone
        = true ∧
      vitalsScores exDFallUnknown.rows DEFAULT_VITALS_ORDER = [none, none] ∧
      compute_mcda_scores exDFallUnknown none none true =
        .error .intCastError := by
  decide

/-- C3 as amended: when literally no record's vitals category appears in
the effective vitals map (and the schema, weight-sum and weight-key checks
would pass), the raw vitals scores remain missing, every MCDA score is
missing, and `compute_mcda_scores` fails on the integer cast of the rank
column — it does not fall back to a 0.5 mid-value and does not proceed. -/
theorem all_unmapped_vitals_abort (df : DataFrame)
    (w vm : Option (List (String × ℚ))) (b : Bool)
    (hschema : missingCols df = [])
    (hw : ¬ weightTotal (w.getD DEFAULT_WEIGHTS) = 0)
    (hc : (dlookup "complexity" (normWeights (w.getD DEFAULT_WEIGHTS))).isSome)
    (ha : (dlookup "acuity" (normWeights (w.getD DEFAULT_WEIGHTS))).isSome)
    (hv : (dlookup "vitals" (normWeights (w.getD DEFAULT_WEIGHTS))).isSome)
    (hne : df.rows ≠ [])
    (hun : ∀ r ∈ df.rows,
      dlookup r.vitals (vm.getD DEFAULT_VITALS_ORDER) = none) :
    compute_mcda_scores df w vm b = .error .intCastError := by
  obtain ⟨wc, hwc⟩ := Option.isSome_iff_exists.mp hc
  obtain ⟨wa, hwa⟩ := Option.isSome_iff_exists.mp ha
  obtain ⟨wv, hwv⟩ := Option.isSome_iff_exists.mp hv
  have hraws : ∀ o ∈ rawVitals df.rows (vm.getD DEFAULT_VITALS_ORDER),
      o = none := by
    intro o ho
    obtain ⟨r, hr, rfl⟩ := List.mem_map.mp ho
    exact hun r hr
  have hfm : (rawVitals df.rows (vm.getD DEFAULT_VITALS_ORDER)).filterMap id
      = [] := by
    rw [List.filterMap_eq_nil_iff]
    intro o ho
    rw [hraws o ho]
    rfl
  have hvs : ∀ o ∈ vitalsScores df.rows (vm.getD DEFAULT_VITALS_ORDER),
      o = none := by
    unfold vitalsScores
    rw [fillVitals_of_no_known hfm]
    exact hraws
  have hnpos : 0 < df.rows.length := List.length_pos.mpr hne
  have hmem : none ∈ scoresOpt
      (filledColumn (df.rows.map (fun r => r.speciality))
        (df.rows.map (fun r => r.complexity)) b)
      (filledColumn (df.rows.map (fun r => r.speciality))
        (df.rows.map (fun r => r.acuity)) b)
      (vitalsScores df.rows (vm.getD DEFAULT_VITALS_ORDER))
      wc wa wv df.rows.length := by
    unfold scoresOpt
    refine List.mem_map.mpr ⟨0, List.mem_range.mpr hnpos, ?_⟩
    rw [getD_none_of_all_none hvs 0]
    cases (filledColumn (df.rows.map (fun r => r.speciality))
        (df.rows.map (fun r => r.complexity)) b).getD 0 none <;>
      cases (filledColumn (df.rows.map (fun r => r.speciality))
        (df.rows.map (fun r => r.acuity)) b).getD 0 none <;> rfl
  have hall := allSome_eq_none_of_mem hmem
  unfold compute_mcda_scores
  rw [if_neg (fun hh => hh hschema), if_neg hw]
  simp only [hwc, hwa, hwv, hall]

/-- Witness for the amended C3. -/
theorem all_unmapped_vitals_abort_witness :
    compute_mcda_scores exDFallUnknown none none true =
      .error .intCastError :=
  all_unmapped_vitals_abort exDFallUnknown none none true (by decide)
    (by decide) (by decide) (by decide) (by decide) (by decide) (by decide)

/-- A batch whose department A consists of a single record with missing
complexity: no group value exists to fill it. -/
def exDFmissingComplexity : DataFrame :=
  { cols := mcdaCols
    rows := [
      { speciality := "A", complexity := none, acuity := some 2, vitals := "Stable" },
      { speciality := "B", complexity := some 1, acuity := some 1, vitals := "Stable" },
      { speciality := "B", complexity := some 2, acuity := some 3, vitals := "Deteriorating" }] }

/-- The same batch restricted to department B only. -/
def exDFjustB : DataFrame :=
  { cols := mcdaCols
    rows := [
      { speciality := "B", complexity := some 1, acuity := some 1, vitals := "Stable" },
      { speciality := "B", complexity := some 2, acuity := some 3, vitals := "Deteriorating" }] }

/-- Counterexample for C4: record 0's normalized complexity is still
missing after the group-median fill, and the whole call fails with the
integer-cast error — department B's records (which score fine on their
own) are not ranked, so the failure is fatal to the batch, with no
per-record exclusion. -/
theorem unresolved_record_aborts_batch_counterexample :
    (filledColumn (exDFmissingComplexity.rows.map (fun r => r.speciality))
        (exDFmissingComplexity.rows.map (fun r => r.complexity)) true).getD 0
        none = none ∧
      compute_mcda_scores exDFmissingComplexity none none true =
        .error .intCastError ∧
      (compute_mcda_scores exDFjustB none none true).isOk = true := by
  decide

/-- C4 as amended: a record whose normalized complexity or acuity is still
missing after the per-department median fill makes `compute_mcda_scores`
fail for the entire batch with the integer-cast error (no record is
excluded individually, no partial ranking is returned and no per-record
data-quality warning exists). -/
theorem unresolved_record_aborts_batch (df : DataFrame)
    (w vm : Option (List (String × ℚ))) (b : Bool)
    (hschema : missingCols df = [])
    (hw : ¬ weightTotal (w.getD DEFAULT_WEIGHTS) = 0)
    (hc : (dlookup "complexity" (normWeights (w.getD DEFAULT_WEIGHTS))).isSome)
    (ha : (dlookup "acuity" (normWeights (w.getD DEFAULT_WEIGHTS))).isSome)
    (hv : (dlookup "vitals" (normWeights (w.getD DEFAULT_WEIGHTS))).isSome)
    (i : ℕ) (hi : i < df.rows.length)
    (hnone :
      (filledColumn (df.rows.map (fun r => r.speciality))
          (df.rows.map (fun r => r.complexity)) b).getD i none = none ∨
        (filledColumn (df.rows.map (fun r => r.speciality))
          (df.rows.map (fun r => r.acuity)) b).getD i none = none) :
    compute_mcda_scores df w vm b = .error .intCastError := by
  obtain ⟨wc, hwc⟩ := Option.isSome_iff_exists.mp hc
  obtain ⟨wa, hwa⟩ := Option.isSome_iff_exists.mp ha
  obtain ⟨wv, hwv⟩ := Option.isSome_iff_exists.mp hv
  have hmem : none ∈ scoresOpt
      (filledColumn (df.rows.map (fun r => r.speciality))
        (df.rows.map (fun r => r.complexity)) b)
      (filledColumn (df.rows.map (fun r => r.speciality))
        (df.rows.map (fun r => r.acuity)) b)
      (vitalsScores df.rows (vm.getD DEFAULT_VITALS_ORDER))
      wc wa wv df.rows.length := by
    unfold scoresOpt
    refine List.mem_map.mpr ⟨i, List.mem_range.mpr hi, ?_⟩
    rcases hnone with hn | hn
    · rw [hn]
    · rw [hn]
      cases (filledColumn (df.rows.map (fun r => r.speciality))
          (df.rows.map (fun r => r.complexity)) b).getD i none <;> rfl
  have hall := allSome_eq_none_of_mem hmem
  unfold compute_mcda_scores
  rw [if_neg (fun hh => hh hschema), if_neg hw]
  simp only [hwc, hwa, hwv, hall]

/-- Witness for the amended C4. -/
theorem unresolved_record_aborts_batch_witness :
    compute_mcda_scores exDFmissingComplexity none none true =
      .error .intCastError :=
  unresolved_record_aborts_batch exDFmissingComplexity none none true
    (by decide) (by decide) (by decide) (by decide) (by decide) 0 (by decide)
    (Or.inl (by decide))

/-- A weight mapping with a negative component whose raw sum is already 1
(so normalization leaves it unchanged). -/
def wNegComponent : List (String × ℚ) :=
  [("complexity", 2), ("acuity", -1/2), ("vitals", -1/2)]

/-- Department A with extreme complexity spread, constant acuity and the
two extreme vitals categories. -/
def exDFspread : DataFrame :=
  { cols := mcdaCols
    rows := [
      { speciality := "A", complexity := some 0, acuity := some 3, vitals := "Improving" },
      { speciality := "A", complexity := some 10, acuity := some 3, vitals := "Deteriorating" }] }

/-- Counterexample for C7: with weights (2, -1/2, -1/2) — accepted by the
code and already normalized (they sum to 1) — record 0 has all three
normalized inputs in [0,1] (0, 1/2 and 0) yet its urgency score is
-1/4 ∉ [0,1]; record 1 scores 5/4.  The claimed bound needs weight
non-negativity, which the code does not guarantee. -/
theorem score_outside_unit_interval_counterexample :
    weightTotal wNegComponent = 1 ∧
      normWeights wNegComponent = wNegComponent ∧
      (dlookup "complexity" (normWeights wNegComponent)).getD 0 +
        (dlookup "acuity" (normWeights wNegComponent)).getD 0 +
        (dlookup "vitals" (normWeights wNegComponent)).getD 0 = 1 ∧
      (filledColumn (exDFspread.rows.map (fun r => r.speciality))
        (exDFspread.rows.map (fun r => r.complexity)) true).getD 0 none
        = some 0 ∧
      (filledColumn (exDFspread.rows.map (fun r => r.speciality))
        (exDFspread.rows.map (fun r => r.acuity)) true).getD 0 none
        = some (1/2) ∧
      (vitalsScores exDFspread.rows DEFAULT_VITALS_ORDER).getD 0 none
        = some 0 ∧
      (((compute_mcda_scores exDFspread (some wNegComponent) none
          true).toOption.getD []).getD 0 default).MCDA_score = -1/4 ∧
      ¬ (0 ≤ (-1/4 : ℚ)) := by
  decide

/-- C7 as amended: every record's urgency score is exactly
`wc * norm_complexity + wa * norm_acuity + wv * vitals_score`, and this
lies in [0,1] whenever the three inputs lie in [0,1], the weights sum to 1
AND the weights are non-negative (the non-negativity hypothesis is the
amendment; without it the bound fails). -/
theorem mcda_score_formula_and_convex_bound :
    (∀ (nc na vs : List (Option ℚ)) (wc wa wv : ℚ) (n i : ℕ) (x y z : ℚ),
      i < n → nc.getD i none = some x → na.getD i none = some y →
      vs.getD i none = some z →
      (scoresOpt nc na vs wc wa wv n).getD i none
        = some (mcdaCombine wc wa wv x y z)) ∧
    (∀ wc wa wv x y z : ℚ, 0 ≤ wc → 0 ≤ wa → 0 ≤ wv → wc + wa + wv = 1 →
      0 ≤ x → x ≤ 1 → 0 ≤ y → y ≤ 1 → 0 ≤ z → z ≤ 1 →
      0 ≤ mcdaCombine wc wa wv x y z ∧ mcdaCombine wc wa wv x y z ≤ 1) := by
  constructor
  · intro nc na vs wc wa wv n i x y z hin hx hy hz
    unfold scoresOpt
    rw [getD_range_map _ none n i hin, hx, hy, hz]
  · intro wc wa wv x y z hwc hwa hwv hsum hx0 hx1 hy0 hy1 hz0 hz1
    unfold mcdaCombine
    constructor
    · have h1 := mul_nonneg hwc hx0
      have h2 := mul_nonneg hwa hy0
      have h3 := mul_nonneg hwv hz0
      linarith
    · have h1 : wc * x ≤ wc := by nlinarith
      have h2 : wa * y ≤ wa := by nlinarith
      have h3 : wv * z ≤ wv := by nlinarith
      linarith

/-- Witness for the amended C7, at the default weights and inputs
(1, 0, 1). -/
theorem mcda_score_formula_and_convex_bound_witness :
    (scoresOpt [some 1] [some 0] [some 1] (1/2) (3/10) (1/5) 1).getD 0 none
        = some (mcdaCombine (1/2) (3/10) (1/5) 1 0 1) ∧
      0 ≤ mcdaCombine (1/2) (3/10) (1/5) 1 0 1 ∧
      mcdaCombine (1/2) (3/10) (1/5) 1 0 1 ≤ 1 := by
  refine ⟨mcda_score_formula_and_convex_bound.1 [some 1] [some 0] [some 1]
    (1/2) (3/10) (1/5) 1 0 1 0 1 (by decide) (by decide) (by decide)
    (by decide), ?_, ?_⟩
  · exact (mcda_score_formula_and_convex_bound.2 (1/2) (3/10) (1/5) 1 0 1
      (by norm_num) (by norm_num) (by norm_num) (by norm_num) (by norm_num)
      (by norm_num) (by norm_num) (by norm_num) (by norm_num)
      (by norm_num)).1
  · exact (mcda_score_formula_and_convex_bound.2 (1/2) (3/10) (1/5) 1 0 1
      (by norm_num) (by norm_num) (by norm_num) (by norm_num) (by norm_num)
      (by norm_num) (by norm_num) (by norm_num) (by norm_num)
      (by norm_num)).2

theorem dlookup_cons (k : String) (p : String × ℚ) (t : List (String × ℚ)) :
    dlookup k (p :: t) = if p.1 = k then some p.2 else dlookup k t := rfl

theorem dlookup_map_div (k : String) (c : ℚ) :
    ∀ t : List (String × ℚ),
      dlookup k (t.map (fun q => (q.1, q.2 / c)))
        = (dlookup k t).map (fun v => v / c)
  | [] => rfl
  | p :: t => by
    by_cases h : p.1 = k
    · simp [dlookup, h]
    · simp only [List.map_cons, dlookup, h, if_neg h, if_false]
      exact dlookup_map_div k c t

/-- Normalization divides every stored weight — whatever its key — by the
sum over all keys present in the mapping. -/
theorem dlookup_normWeights (ws : List (String × ℚ)) (k : String) :
    dlookup k (normWeights ws)
      = (dlookup k ws).map (fun v => v / weightTotal ws) :=
  dlookup_map_div k (weightTotal ws) ws

theorem dlookup_eq_none_of_not_mem (k : String) :
    ∀ {t : List (String × ℚ)}, k ∉ t.map Prod.fst → dlookup k t = none := by
  intro t
  induction t with
  | nil => intro _; rfl
  | cons p u ih =>
    intro h
    simp only [List.map_cons, List.mem_cons] at h
    push_neg at h
    rw [dlookup_cons, if_neg (fun he => h.1 he.symm)]
    exact ih h.2

/-- The sum of the weights the scoring formula actually uses: the first
stored values for the keys complexity, acuity and vitals (0 when a key is
absent). -/
def threeKeyTotal (ws : List (String × ℚ)) : ℚ :=
  (dlookup "complexity" ws).getD 0 + (dlookup "acuity" ws).getD 0 +
    (dlookup "vitals" ws).getD 0

/-- The total raw weight stored under keys other than the three the
scoring formula reads. -/
def extraKeyTotal (ws : List (String × ℚ)) : ℚ :=
  weightTotal (ws.filter (fun p =>
    ¬(p.1 = "complexity" ∨ p.1 = "acuity" ∨ p.1 = "vitals")))

theorem weightTotal_decompose :
    ∀ ws : List (String × ℚ), (ws.map Prod.fst).Nodup →
      weightTotal ws = threeKeyTotal ws + extraKeyTotal ws := by
  intro ws
  induction ws with
  | nil => intro _; rfl
  | cons p t ih =>
    intro hnd
    simp only [List.map_cons, List.nodup_cons] at hnd
    obtain ⟨hp, hndt⟩ := hnd
    have htot : weightTotal (p :: t) = p.2 + weightTotal t := by
      simp [weightTotal]
    have iht := ih hndt
    by_cases hc : p.1 = "complexity"
    · have dc : dlookup "complexity" (p :: t) = some p.2 := by
        rw [dlookup_cons, if_pos hc]
      have da : dlookup "acuity" (p :: t) = dlookup "acuity" t := by
        rw [dlookup_cons, if_neg (by rw [hc]; decide)]
      have dv : dlookup "vitals" (p :: t) = dlookup "vitals" t := by
        rw [dlookup_cons, if_neg (by rw [hc]; decide)]
      have h2 : dlookup "complexity" t = none :=
        dlookup_eq_none_of_not_mem _ (hc ▸ hp)
      have hext : extraKeyTotal (p :: t) = extraKeyTotal t := by
        simp [extraKeyTotal, List.filter_cons, hc]
      have iht2 : weightTotal t = (dlookup "acuity" t).getD 0 +
          (dlookup "vitals" t).getD 0 + extraKeyTotal t := by
        rw [iht]
        unfold threeKeyTotal
        rw [h2]
        simp
      unfold threeKeyTotal
      rw [dc, da, dv, htot, hext, iht2]
      simp only [Option.getD_some]
      ring
    · by_cases ha : p.1 = "acuity"
      · have dc : dlookup "complexity" (p :: t) = dlookup "complexity" t := by
          rw [dlookup_cons, if_neg (by rw [ha]; decide)]
        have da : dlookup "acuity" (p :: t) = some p.2 := by
          rw [dlookup_cons, if_pos ha]
        have dv : dlookup "vitals" (p :: t) = dlookup "vitals" t := by
          rw [dlookup_cons, if_neg (by rw [ha]; decide)]
        have h2 : dlookup "acuity" t = none :=
          dlookup_eq_none_of_not_mem _ (ha ▸ hp)
        have hext : extraKeyTotal (p :: t) = extraKeyTotal t := by
          simp [extraKeyTotal, List.filter_cons, ha]
        have iht2 : weightTotal t = (dlookup "complexity" t).getD 0 +
            (dlookup "vitals" t).getD 0 + extraKeyTotal t := by
          rw [iht]
          unfold threeKeyTotal
          rw [h2]
          simp
        unfold threeKeyTotal
        rw [dc, da, dv, htot, hext, iht2]
        simp only [Option.getD_some]
        ring
      · by_cases hv : p.1 = "vitals"
        · have dc : dlookup "complexity" (p :: t) = dlookup "complexity" t := by
            rw [dlookup_cons, if_neg (by rw [hv]; decide)]
          have da : dlookup "acuity" (p :: t) = dlookup "acuity" t := by
            rw [dlookup_cons, if_neg (by rw [hv]; decide)]
          have dv : dlookup "vitals" (p :: t) = some p.2 := by
            rw [dlookup_cons, if_pos hv]
          have h2 : dlookup "vitals" t = none :=
            dlookup_eq_none_of_not_mem _ (hv ▸ hp)
          have hext : extraKeyTotal (p :: t) = extraKeyTotal t := by
            simp [extraKeyTotal, List.filter_cons, hv]
          have iht2 : weightTotal t = (dlookup "complexity" t).getD 0 +
              (dlookup "acuity" t).getD 0 + extraKeyTotal t := by
            rw [iht]
            unfold threeKeyTotal
            rw [h2]
            simp
          unfold threeKeyTotal
          rw [dc, da, dv, htot, hext, iht2]
          simp only [Option.getD_some]
          ring
        · have dc : dlookup "complexity" (p :: t) = dlookup "complexity" t := by
            rw [dlookup_cons, if_neg hc]
          have da : dlookup "acuity" (p :: t) = dlookup "acuity" t := by
            rw [dlookup_cons, if_neg ha]
          have dv : dlookup "vitals" (p :: t) = dlookup "vitals" t := by
            rw [dlookup_cons, if_neg hv]
          have hext : extraKeyTotal (p :: t) = p.2 + extraKeyTotal t := by
            simp only [extraKeyTotal, List.filter_cons]
            rw [if_pos (by simp [hc, ha, hv])]
            simp [weightTotal]
          unfold threeKeyTotal
          rw [dc, da, dv, htot, hext, iht]
          unfold threeKeyTotal
          ring

/-- A weight mapping holding the three criteria plus an extra key of
weight zero. -/
def wExtraZero : List (String × ℚ) :=
  [("complexity", 1), ("acuity", 1), ("vitals", 1), ("extra", 0)]

/-- Counterexample for C10: the mapping does contain a key other than the
three criteria, yet the three normalized weights still sum to exactly 1
(the extra key carries weight 0), so "sums to 1 iff no extra key" fails in
the only-if direction. -/
theorem extra_key_dilution_counterexample :
    wExtraZero.any (fun p =>
        ¬(p.1 = "complexity" ∨ p.1 = "acuity" ∨ p.1 = "vitals")) = true ∧
      threeKeyTotal (normWeights wExtraZero) = 1 := by
  decide

/-- C10 as amended: weights are normalized by the sum over all keys
present in the mapping; for a duplicate-free mapping the total splits into
the three used keys plus the extra keys, so after normalization the three
used weights sum to 1 exactly when the extra keys' raw weights sum to 0 (a
positive extra total dilutes the sum below 1); and a mapping missing one
of the three keys makes scoring fail with the key-lookup error for the
first missing key (complexity, then acuity, then vitals), not with a
weight-validation error. -/
theorem weights_normalized_over_all_keys :
    (∀ (ws : List (String × ℚ)) (k : String),
      dlookup k (normWeights ws)
        = (dlookup k ws).map (fun v => v / weightTotal ws)) ∧
    (∀ ws : List (String × ℚ), (ws.map Prod.fst).Nodup →
      weightTotal ws = threeKeyTotal ws + extraKeyTotal ws) ∧
    (∀ ws : List (String × ℚ), (ws.map Prod.fst).Nodup →
      weightTotal ws ≠ 0 →
      (threeKeyTotal (normWeights ws) = 1 ↔ extraKeyTotal ws = 0)) ∧
    (∀ ws : List (String × ℚ), (ws.map Prod.fst).Nodup →
      0 < weightTotal ws → 0 < extraKeyTotal ws →
      threeKeyTotal (normWeights ws) < 1) ∧
    (∀ (df : DataFrame) (ws : List (String × ℚ))
      (vm : Option (List (String × ℚ))) (b : Bool),
      missingCols df = [] → ¬ weightTotal ws = 0 →
      dlookup "complexity" ws = none →
      compute_mcda_scores df (some ws) vm b
        = .error (.keyError "complexity")) ∧
    (∀ (df : DataFrame) (ws : List (String × ℚ))
      (vm : Option (List (String × ℚ))) (b : Bool),
      missingCols df = [] → ¬ weightTotal ws = 0 →
      (dlookup "complexity" ws).isSome → dlookup "acuity" ws = none →
      compute_mcda_scores df (some ws) vm b
        = .error (.keyError "acuity")) ∧
    (∀ (df : DataFrame) (ws : List (String × ℚ))
      (vm : Option (List (String × ℚ))) (b : Bool),
      missingCols df = [] → ¬ weightTotal ws = 0 →
      (dlookup "complexity" ws).isSome → (dlookup "acuity" ws).isSome →
      dlookup "vitals" ws = none →
      compute_mcda_scores df (some ws) vm b
        = .error (.keyError "vitals")) := by
  have hthree : ∀ ws : List (String × ℚ),
      threeKeyTotal (normWeights ws) = threeKeyTotal ws / weightTotal ws := by
    intro ws
    have ho : ∀ o : Option ℚ,
        (o.map (fun v => v / weightTotal ws)).getD 0
          = o.getD 0 / weightTotal ws := by
      intro o
      cases o <;> simp
    unfold threeKeyTotal
    rw [dlookup_normWeights, dlookup_normWeights, dlookup_normWeights,
      ho, ho, ho, ← add_div, ← add_div]
  refine ⟨dlookup_normWeights, weightTotal_decompose, ?_, ?_, ?_, ?_, ?_⟩
  · intro ws hnd hS
    rw [hthree]
    constructor
    · intro h1
      have h2 : threeKeyTotal ws = weightTotal ws :=
        (div_eq_one_iff_eq hS).mp h1
      have h3 := weightTotal_decompose ws hnd
      linarith
    · intro h0
      have h3 := weightTotal_decompose ws hnd
      rw [h0, add_zero] at h3
      rw [← h3]
      exact div_self hS
  · intro ws hnd hpos hextra
    rw [hthree]
    rw [div_lt_one hpos]
    have h3 := weightTotal_decompose ws hnd
    linarith
  · intro df ws vm b hschema hw hcn
    have hcn2 : dlookup "complexity" (normWeights ws) = none := by
      rw [dlookup_normWeights, hcn]
      rfl
    unfold compute_mcda_scores
    rw [if_neg (fun hh => hh hschema)]
    simp only [Option.getD_some]
    rw [if_neg hw]
    simp only [hcn2]
  · intro df ws vm b hschema hw hcs han
    obtain ⟨wc, hwc⟩ := Option.isSome_iff_exists.mp hcs
    have hc2 : dlookup "complexity" (normWeights ws)
        = some (wc / weightTotal ws) := by
      rw [dlookup_normWeights, hwc]
      rfl
    have ha2 : dlookup "acuity" (normWeights ws) = none := by
      rw [dlookup_normWeights, han]
      rfl
    unfold compute_mcda_scores
    rw [if_neg (fun hh => hh hschema)]
    simp only [Option.getD_some]
    rw [if_neg hw]
    simp only [hc2, ha2]
  · intro df ws vm b hschema hw hcs has hvn
    obtain ⟨wc, hwc⟩ := Option.isSome_iff_exists.mp hcs
    obtain ⟨wa, hwa⟩ := Option.isSome_iff_exists.mp has
    have hc2 : dlookup "complexity" (normWeights ws)
        = some (wc / weightTotal ws) := by
      rw [dlookup_normWeights, hwc]
      rfl
    have ha2 : dlookup "acuity" (normWeights ws)
        = some (wa / weightTotal ws) := by
      rw [dlookup_normWeights, hwa]
      rfl
    have hv2 : dlookup "vitals" (normWeights ws) = none := by
      rw [dlookup_normWeights, hvn]
      rfl
    unfold compute_mcda_scores
    rw [if_neg (fun hh => hh hschema)]
    simp only [Option.getD_some]
    rw [if_neg hw]
    simp only [hc2, ha2, hv2]

/-- Witness for the amended C10: normalization of the zero-extra mapping,
its decomposition and iff; dilution below 1 for a positive extra key; and
the key-lookup failure for a mapping without the complexity key. -/
theorem weights_normalized_over_all_keys_witness :
    dlookup "acuity" (normWeights wExtraZero) = some (1/3) ∧
      weightTotal wExtraZero = threeKeyTotal wExtraZero +
        extraKeyTotal wExtraZero ∧
      (threeKeyTotal (normWeights wExtraZero) = 1 ↔
        extraKeyTotal wExtraZero = 0) ∧
      threeKeyTotal (normWeights
        [("complexity", 1), ("acuity", 1), ("vitals", 1), ("extra", 2)]) < 1 ∧
      compute_mcda_scores exDF (some [("acuity", 1), ("vitals", 1)]) none true
        = .error (.keyError "complexity") := by
  refine ⟨?_, ?_, ?_, ?_, ?_⟩
  · rw [weights_normalized_over_all_keys.1 wExtraZero "acuity"]
    decide
  · exact weights_normalized_over_all_keys.2.1 wExtraZero (by decide)
  · exact weights_normalized_over_all_keys.2.2.1 wExtraZero (by decide)
      (by decide)
  · exact weights_normalized_over_all_keys.2.2.2.1
      [("complexity", 1), ("acuity", 1), ("vitals", 1), ("extra", 2)]
      (by decide) (by decide) (by decide)
  · exact weights_normalized_over_all_keys.2.2.2.2.1 exDF
      [("acuity", 1), ("vitals", 1)] none true (by decide) (by decide)
      (by decide)

/-- The set of positions ranked strictly ahead of position `p`: larger
value, or equal value and earlier position. -/
def rankAhead (v : List ℚ) (p : ℕ) : Finset ℕ :=
  (Finset.range v.length).filter (fun q =>
    v.getD q 0 > v.getD p 0 ∨ (v.getD q 0 = v.getD p 0 ∧ q < p))

theorem rankFirstDesc_eq_card (v : List ℚ) (p : ℕ) :
    rankFirstDesc v p = 1 + (rankAhead v p).card := rfl

theorem mem_rankAhead {v : List ℚ} {p x : ℕ} :
    x ∈ rankAhead v p ↔ x < v.length ∧
      (v.getD x 0 > v.getD p 0 ∨ (v.getD x 0 = v.getD p 0 ∧ x < p)) := by
  unfold rankAhead
  simp [Finset.mem_filter, Finset.mem_range]

theorem not_self_mem_rankAhead (v : List ℚ) (p : ℕ) :
    p ∉ rankAhead v p := by
  rw [mem_rankAhead]
  push_neg
  intro _
  exact ⟨le_refl _, fun _ => le_refl _⟩

theorem rankFirstDesc_pos (v : List ℚ) (p : ℕ) : 1 ≤ rankFirstDesc v p := by
  rw [rankFirstDesc_eq_card]
  omega

theorem rankFirstDesc_le_length {v : List ℚ} {p : ℕ} (hp : p < v.length) :
    rankFirstDesc v p ≤ v.length := by
  rw [rankFirstDesc_eq_card]
  have hsub : rankAhead v p ⊆ (Finset.range v.length).erase p := by
    intro x hx
    rw [mem_rankAhead] at hx
    rw [Finset.mem_erase, Finset.mem_range]
    refine ⟨?_, hx.1⟩
    intro hxp
    subst hxp
    rcases hx.2 with hgt | ⟨_, hlt⟩
    · exact lt_irrefl _ hgt
    · exact lt_irrefl _ hlt
  have hcard := Finset.card_le_card hsub
  rw [Finset.card_erase_of_mem (Finset.mem_range.mpr hp),
    Finset.card_range] at hcard
  omega

theorem rankFirstDesc_lt_of_gt {v : List ℚ} {p q : ℕ}
    (hp : p < v.length) (hgt : v.getD p 0 > v.getD q 0) :
    rankFirstDesc v p < rankFirstDesc v q := by
  rw [rankFirstDesc_eq_card, rankFirstDesc_eq_card]
  have hsub : rankAhead v p ⊆ rankAhead v q := by
    intro x hx
    rw [mem_rankAhead] at hx ⊢
    refine ⟨hx.1, Or.inl ?_⟩
    rcases hx.2 with hg | ⟨he, _⟩
    · exact lt_trans hgt hg
    · exact he ▸ hgt
  have hpq : p ∈ rankAhead v q := mem_rankAhead.mpr ⟨hp, Or.inl hgt⟩
  have hlt : (rankAhead v p).card < (rankAhead v q).card := by
    apply Finset.card_lt_card
    rw [Finset.ssubset_def]
    exact ⟨hsub, fun hts => not_self_mem_rankAhead v p (hts hpq)⟩
  omega

theorem rankFirstDesc_lt_of_eq_of_lt {v : List ℚ} {p q : ℕ}
    (hp : p < v.length) (hpq : p < q) (heq : v.getD p 0 = v.getD q 0) :
    rankFirstDesc v p < rankFirstDesc v q := by
  rw [rankFirstDesc_eq_card, rankFirstDesc_eq_card]
  have hsub : rankAhead v p ⊆ rankAhead v q := by
    intro x hx
    rw [mem_rankAhead] at hx ⊢
    refine ⟨hx.1, ?_⟩
    rcases hx.2 with hg | ⟨he, hl⟩
    · exact Or.inl (heq ▸ hg)
    · exact Or.inr ⟨heq ▸ he, lt_trans hl hpq⟩
  have hpmem : p ∈ rankAhead v q := mem_rankAhead.mpr ⟨hp, Or.inr ⟨heq, hpq⟩⟩
  have hlt : (rankAhead v p).card < (rankAhead v q).card := by
    apply Finset.card_lt_card
    rw [Finset.ssubset_def]
    exact ⟨hsub, fun hts => not_self_mem_rankAhead v p (hts hpmem)⟩
  omega

theorem rankFirstDesc_injOn {v : List ℚ} {p q : ℕ}
    (hp : p < v.length) (hq : q < v.length) (hne : p ≠ q) :
    rankFirstDesc v p ≠ rankFirstDesc v q := by
  rcases lt_trichotomy (v.getD p 0) (v.getD q 0) with hlt | heq | hgt
  · exact Ne.symm (Nat.ne_of_lt (rankFirstDesc_lt_of_gt hq hlt))
  · rcases lt_or_gt_of_ne hne with hpq | hqp
    · exact Nat.ne_of_lt (rankFirstDesc_lt_of_eq_of_lt hp hpq heq)
    · exact Ne.symm
        (Nat.ne_of_lt (rankFirstDesc_lt_of_eq_of_lt hq hqp heq.symm))
  · exact Nat.ne_of_lt (rankFirstDesc_lt_of_gt hp hgt)

theorem rankFirstDesc_surjOn (v : List ℚ) (m : ℕ) (h1 : 1 ≤ m)
    (h2 : m ≤ v.length) : ∃ p, p < v.length ∧ rankFirstDesc v p = m := by
  classical
  have hinj : Set.InjOn (fun p => rankFirstDesc v p)
      ↑(Finset.range v.length) := by
    intro a ha b hb hab
    by_contra hne
    exact rankFirstDesc_injOn (Finset.mem_range.mp (Finset.mem_coe.mp ha))
      (Finset.mem_range.mp (Finset.mem_coe.mp hb)) hne hab
  have hcard : ((Finset.range v.length).image
      (fun p => rankFirstDesc v p)).card = v.length := by
    rw [Finset.card_image_of_injOn hinj, Finset.card_range]
  have hsub : (Finset.range v.length).image (fun p => rankFirstDesc v p)
      ⊆ Finset.Icc 1 v.length := by
    intro x hx
    obtain ⟨p, hp, rfl⟩ := Finset.mem_image.mp hx
    rw [Finset.mem_Icc]
    exact ⟨rankFirstDesc_pos v p,
      rankFirstDesc_le_length (Finset.mem_range.mp hp)⟩
  have heq : (Finset.range v.length).image (fun p => rankFirstDesc v p)
      = Finset.Icc 1 v.length := by
    apply Finset.eq_of_subset_of_card_le hsub
    rw [hcard, Nat.card_Icc]
    omega
  have hm : m ∈ Finset.Icc 1 v.length := Finset.mem_Icc.mpr ⟨h1, h2⟩
  rw [← heq] at hm
  obtain ⟨p, hp, hpm⟩ := Finset.mem_image.mp hm
  exact ⟨p, Finset.mem_range.mp hp, hpm⟩

theorem selectGroup_nil {α : Type} (k : String) :
    selectGroup [] ([] : List α) k = [] := rfl

theorem selectGroup_cons {α : Type} (k0 : String) (s0 : α)
    (kt : List String) (st : List α) (k : String) :
    selectGroup (k0 :: kt) (s0 :: st) k =
      if k0 = k then s0 :: selectGroup kt st k else selectGroup kt st k := by
  unfold selectGroup
  rw [List.zip_cons_cons, List.filter_cons]
  by_cases h : k0 = k
  · simp [h]
  · simp [h]

theorem countKeyBefore_zero (keys : List String) (k : String) :
    countKeyBefore keys 0 k = 0 := rfl

theorem countKeyBefore_cons_succ (k0 : String) (kt : List String) (i : ℕ)
    (k : String) :
    countKeyBefore (k0 :: kt) (i + 1) k =
      (if k0 = k then 1 else 0) + countKeyBefore kt i k := by
  unfold countKeyBefore
  rw [List.take_succ_cons, List.filter_cons]
  by_cases h : k0 = k
  · simp [h, Nat.add_comm]
  · simp [h]

theorem selectGroup_length {α : Type} :
    ∀ (keys : List String) (scores : List α) (k : String),
      scores.length = keys.length →
      (selectGroup keys scores k).length = keys.countP (fun x => x = k)
  | [], scores, k, h => by
    cases scores with
    | nil => rfl
    | cons s0 st => simp at h
  | k0 :: kt, scores, k, h => by
    cases scores with
    | nil => simp at h
    | cons s0 st =>
      have ht : st.length = kt.length := by simpa using h
      rw [selectGroup_cons, List.countP_cons]
      by_cases hk : k0 = k
      · rw [if_pos hk, List.length_cons, selectGroup_length kt st k ht,
          if_pos (by simp [hk])]
      · rw [if_neg hk, selectGroup_length kt st k ht,
          if_neg (by simp [hk]), Nat.add_zero]

theorem countKeyBefore_lt_group_length {α : Type} :
    ∀ (keys : List String) (scores : List α) (i : ℕ) (k : String),
      scores.length = keys.length → i < keys.length →
      keys.getD i "" = k →
      countKeyBefore keys i k < (selectGroup keys scores k).length
  | [], _, i, k, _, hi, _ => absurd hi (by simp)
  | k0 :: kt, scores, i, k, h, hi, hk => by
    cases scores with
    | nil => simp at h
    | cons s0 st =>
      have ht : st.length = kt.length := by simpa using h
      cases i with
      | zero =>
        have hk0 : k0 = k := by simpa using hk
        rw [countKeyBefore_zero, selectGroup_cons, if_pos hk0]
        simp
      | succ i =>
        have hi2 : i < kt.length := by simpa using hi
        have hk2 : kt.getD i "" = k := by simpa using hk
        rw [countKeyBefore_cons_succ, selectGroup_cons]
        have ih := countKeyBefore_lt_group_length kt st i k ht hi2 hk2
        by_cases hk0 : k0 = k
        · rw [if_pos hk0, if_pos hk0, List.length_cons]
          omega
        · rw [if_neg hk0, if_neg hk0]
          omega

theorem selectGroup_getD_countKeyBefore :
    ∀ (keys : List String) (scores : List ℚ) (i : ℕ) (k : String),
      scores.length = keys.length → i < keys.length →
      keys.getD i "" = k →
      (selectGroup keys scores k).getD (countKeyBefore keys i k) 0 =
        scores.getD i 0
  | [], _, i, k, _, hi, _ => absurd hi (by simp)
  | k0 :: kt, scores, i, k, h, hi, hk => by
    cases scores with
    | nil => simp at h
    | cons s0 st =>
      have ht : st.length = kt.length := by simpa using h
      cases i with
      | zero =>
        have hk0 : k0 = k := by simpa using hk
        rw [countKeyBefore_zero, selectGroup_cons, if_pos hk0]
        rfl
      | succ i =>
        have hi2 : i < kt.length := by simpa using hi
        have hk2 : kt.getD i "" = k := by simpa using hk
        have ih := selectGroup_getD_countKeyBefore kt st i k ht hi2 hk2
        rw [countKeyBefore_cons_succ, selectGroup_cons]
        by_cases hk0 : k0 = k
        · rw [if_pos hk0, if_pos hk0,
            Nat.add_comm 1 (countKeyBefore kt i k)]
          simp only [List.getD_cons_succ]
          exact ih
        · rw [if_neg hk0, if_neg hk0, Nat.zero_add]
          simp only [List.getD_cons_succ]
          exact ih

theorem countKeyBefore_strict_mono :
    ∀ (keys : List String) (i j : ℕ) (k : String),
      i < j → i < keys.length → keys.getD i "" = k →
      countKeyBefore keys i k < countKeyBefore keys j k
  | [], i, j, k, _, hi, _ => absurd hi (by simp)
  | k0 :: kt, i, j, k, hij, hi, hk => by
    cases j with
    | zero => exact absurd hij (by omega)
    | succ j =>
      cases i with
      | zero =>
        have hk0 : k0 = k := by simpa using hk
        rw [countKeyBefore_zero, countKeyBefore_cons_succ, if_pos hk0]
        omega
      | succ i =>
        have hi2 : i < kt.length := by simpa using hi
        have hk2 : kt.getD i "" = k := by simpa using hk
        have ih := countKeyBefore_strict_mono kt i j k (by omega) hi2 hk2
        rw [countKeyBefore_cons_succ, countKeyBefore_cons_succ]
        omega

theorem exists_index_of_group_pos :
    ∀ (keys : List String) (scores : List ℚ) (k : String) (p : ℕ),
      scores.length = keys.length →
      p < (selectGroup keys scores k).length →
      ∃ i, i < keys.length ∧ keys.getD i "" = k ∧
        countKeyBefore keys i k = p
  | [], scores, k, p, h, hp => by
    cases scores with
    | nil => simp [selectGroup_nil] at hp
    | cons s0 st => simp at h
  | k0 :: kt, scores, k, p, h, hp => by
    cases scores with
    | nil => simp at h
    | cons s0 st =>
      have ht : st.length = kt.length := by simpa using h
      rw [selectGroup_cons] at hp
      by_cases hk0 : k0 = k
      · rw [if_pos hk0] at hp
        cases p with
        | zero =>
          exact ⟨0, by simp, by simpa using hk0, countKeyBefore_zero _ _⟩
        | succ p =>
          have hp2 : p < (selectGroup kt st k).length := by simpa using hp
          obtain ⟨i, hi, hki, hci⟩ :=
            exists_index_of_group_pos kt st k p ht hp2
          refine ⟨i + 1, by simpa using hi, by simpa using hki, ?_⟩
          rw [countKeyBefore_cons_succ, if_pos hk0, hci]
          omega
      · rw [if_neg hk0] at hp
        obtain ⟨i, hi, hki, hci⟩ :=
          exists_index_of_group_pos kt st k p ht hp
        refine ⟨i + 1, by simpa using hi, by simpa using hki, ?_⟩
        rw [countKeyBefore_cons_succ, if_neg hk0, hci]
        omega

theorem buildOutput_length (rows : List PatientRow) (keys : List String)
    (scores : List ℚ) :
    (buildOutput rows keys scores).length = rows.length := by
  simp [buildOutput]

theorem buildOutput_getD (rows : List PatientRow) (keys : List String)
    (scores : List ℚ) (i : ℕ) (h : i < rows.length) :
    (buildOutput rows keys scores).getD i default =
      { speciality := (rows.getD i default).speciality
        complexity := (rows.getD i default).complexity
        acuity := (rows.getD i default).acuity
        vitals := (rows.getD i default).vitals
        MCDA_score := scores.getD i 0
        mcda_rank_within_Speciality :=
          rankFirstDesc
            (selectGroup keys scores (rows.getD i default).speciality)
            (countKeyBefore keys i (rows.getD i default).speciality)
        tie_breaker := tieBreaker (rows.getD i default) } := by
  unfold buildOutput
  rw [getD_range_map _ default rows.length i h]

theorem range_map_getD {α : Type} (l : List α) (d : α) :
    (List.range l.length).map (fun i => l.getD i d) = l := by
  apply List.ext_getElem
  · simp
  · intro i h1 h2
    simp only [List.getElem_map, List.getElem_range,
      List.getD_eq_getElem?_getD, List.getElem?_eq_getElem h2,
      Option.getD_some]

theorem buildOutput_map_speciality (rows : List PatientRow)
    (keys : List String) (scores : List ℚ) :
    (buildOutput rows keys scores).map (fun r => r.speciality)
      = rows.map (fun r => r.speciality) := by
  unfold buildOutput
  rw [List.map_map]
  have h1 : (List.range rows.length).map
      (fun i => (rows.map (fun r => r.speciality)).getD i "")
      = rows.map (fun r => r.speciality) := by
    have h2 := range_map_getD (rows.map (fun r => r.speciality)) ""
    rwa [List.length_map] at h2
  rw [← h1]
  apply List.map_congr_left
  intro i hi
  have hi2 : i < rows.length := List.mem_range.mp hi
  rw [getD_map_lt (fun r => r.speciality) default "" rows i hi2]
  rfl

/-- Number of output records in department `k`. -/
def deptCount (out : List ScoredRecord) (k : String) : ℕ :=
  out.countP (fun r => r.speciality = k)

theorem deptCount_buildOutput (rows : List PatientRow) (keys : List String)
    (scores : List ℚ) (k : String) :
    deptCount (buildOutput rows keys scores) k
      = (rows.map (fun r => r.speciality)).countP (fun x => x = k) := by
  unfold deptCount
  rw [← buildOutput_map_speciality rows keys scores, List.countP_map]
  rfl

theorem allSome_length :
    ∀ {l : List (Option ℚ)} {l2 : List ℚ}, allSome l = some l2 →
      l2.length = l.length := by
  intro l
  induction l with
  | nil =>
    intro l2 h
    simp only [allSome] at h
    cases h
    rfl
  | cons x t ih =>
    intro l2 h
    cases x with
    | none => simp [allSome] at h
    | some v =>
      simp only [allSome] at h
      cases ht : allSome t with
      | none => rw [ht] at h; simp at h
      | some u =>
        rw [ht] at h
        have h2 : some (v :: u) = some l2 := h
        injection h2 with h3
        subst h3
        simp [ih ht]

theorem scoresOpt_length (nc na vs : List (Option ℚ)) (wc wa wv : ℚ)
    (n : ℕ) : (scoresOpt nc na vs wc wa wv n).length = n := by
  simp [scoresOpt]

/-- Within each department the rank column is a faithful ranking: every
rank lies in 1..N (N the department's size), no two records of a
department share a rank, a strictly higher score gets a strictly smaller
rank, equal scores are ordered by input position, and every value 1..N is
attained in every department. -/
def RanksWellFormed (out : List ScoredRecord) : Prop :=
  (∀ i, i < out.length →
    1 ≤ (out.getD i default).mcda_rank_within_Speciality ∧
    (out.getD i default).mcda_rank_within_Speciality ≤
      deptCount out (out.getD i default).speciality) ∧
  (∀ i j, i < out.length → j < out.length → i ≠ j →
    (out.getD i default).speciality = (out.getD j default).speciality →
    (out.getD i default).mcda_rank_within_Speciality ≠
      (out.getD j default).mcda_rank_within_Speciality) ∧
  (∀ i j, i < out.length → j < out.length →
    (out.getD i default).speciality = (out.getD j default).speciality →
    (out.getD i default).MCDA_score > (out.getD j default).MCDA_score →
    (out.getD i default).mcda_rank_within_Speciality <
      (out.getD j default).mcda_rank_within_Speciality) ∧
  (∀ i j, i < j → j < out.length →
    (out.getD i default).speciality = (out.getD j default).speciality →
    (out.getD i default).MCDA_score = (out.getD j default).MCDA_score →
    (out.getD i default).mcda_rank_within_Speciality <
      (out.getD j default).mcda_rank_within_Speciality) ∧
  (∀ i m, i < out.length → 1 ≤ m →
    m ≤ deptCount out (out.getD i default).speciality →
    ∃ j, j < out.length ∧
      (out.getD j default).speciality = (out.getD i default).speciality ∧
      (out.getD j default).mcda_rank_within_Speciality = m)

theorem buildOutput_ranks_wf (rows : List PatientRow) (scores : List ℚ)
    (hs : scores.length = rows.length) :
    RanksWellFormed
      (buildOutput rows (rows.map (fun r => r.speciality)) scores) := by
  set keys := rows.map (fun r => r.speciality) with hkeys
  set out := buildOutput rows keys scores with hout
  have hklen : keys.length = rows.length := by
    rw [hkeys]
    exact List.length_map rows _
  have hsl : scores.length = keys.length := by rw [hklen]; exact hs
  have hol : out.length = rows.length := by
    rw [hout]
    exact buildOutput_length rows keys scores
  have hrec : ∀ i, i < rows.length → out.getD i default =
      { speciality := (rows.getD i default).speciality
        complexity := (rows.getD i default).complexity
        acuity := (rows.getD i default).acuity
        vitals := (rows.getD i default).vitals
        MCDA_score := scores.getD i 0
        mcda_rank_within_Speciality :=
          rankFirstDesc
            (selectGroup keys scores (rows.getD i default).speciality)
            (countKeyBefore keys i (rows.getD i default).speciality)
        tie_breaker := tieBreaker (rows.getD i default) } := by
    intro i hi
    rw [hout]
    exact buildOutput_getD rows keys scores i hi
  have hspec : ∀ i, i < rows.length →
      (out.getD i default).speciality = (rows.getD i default).speciality := by
    intro i hi
    rw [hrec i hi]
  have hscore : ∀ i, i < rows.length →
      (out.getD i default).MCDA_score = scores.getD i 0 := by
    intro i hi
    rw [hrec i hi]
  have hrank : ∀ i, i < rows.length →
      (out.getD i default).mcda_rank_within_Speciality =
        rankFirstDesc
          (selectGroup keys scores (rows.getD i default).speciality)
          (countKeyBefore keys i (rows.getD i default).speciality) := by
    intro i hi
    rw [hrec i hi]
  have hkey : ∀ i, i < rows.length →
      keys.getD i "" = (rows.getD i default).speciality := by
    intro i hi
    rw [hkeys]
    exact getD_map_lt _ default "" rows i hi
  have hdept : ∀ k, deptCount out k = (selectGroup keys scores k).length := by
    intro k
    rw [hout, deptCount_buildOutput, ← hkeys]
    exact (selectGroup_length keys scores k hsl).symm
  refine ⟨?_, ?_, ?_, ?_, ?_⟩
  · intro i hi
    rw [hol] at hi
    rw [hrank i hi, hspec i hi, hdept]
    have hplt := countKeyBefore_lt_group_length keys scores i
      (rows.getD i default).speciality hsl (hklen ▸ hi) (hkey i hi)
    exact ⟨rankFirstDesc_pos _ _, rankFirstDesc_le_length hplt⟩
  · intro i j hi hj hne hspeceq
    rw [hol] at hi hj
    rw [hspec i hi, hspec j hj] at hspeceq
    rw [hrank i hi, hrank j hj, ← hspeceq]
    have hpi := countKeyBefore_lt_group_length keys scores i
      (rows.getD i default).speciality hsl (hklen ▸ hi) (hkey i hi)
    have hpj := countKeyBefore_lt_group_length keys scores j
      (rows.getD i default).speciality hsl (hklen ▸ hj)
      (by rw [hkey j hj, hspeceq])
    apply rankFirstDesc_injOn hpi hpj
    rcases Nat.lt_trichotomy i j with hij | hij | hij
    · exact Nat.ne_of_lt (countKeyBefore_strict_mono keys i j _ hij
        (hklen ▸ hi) (hkey i hi))
    · exact absurd hij hne
    · exact Ne.symm (Nat.ne_of_lt (countKeyBefore_strict_mono keys j i _ hij
        (hklen ▸ hj) (by rw [hkey j hj, hspeceq])))
  · intro i j hi hj hspeceq hgt
    rw [hol] at hi hj
    rw [hspec i hi, hspec j hj] at hspeceq
    rw [hscore i hi, hscore j hj] at hgt
    rw [hrank i hi, hrank j hj, ← hspeceq]
    have hpi := countKeyBefore_lt_group_length keys scores i
      (rows.getD i default).speciality hsl (hklen ▸ hi) (hkey i hi)
    have hvi := selectGroup_getD_countKeyBefore keys scores i
      (rows.getD i default).speciality hsl (hklen ▸ hi) (hkey i hi)
    have hvj := selectGroup_getD_countKeyBefore keys scores j
      (rows.getD i default).speciality hsl (hklen ▸ hj)
      (by rw [hkey j hj, hspeceq])
    apply rankFirstDesc_lt_of_gt hpi
    rw [hvi, hvj]
    exact hgt
  · intro i j hij hj hspeceq heq
    rw [hol] at hj
    have hi : i < rows.length := lt_trans hij hj
    rw [hspec i hi, hspec j hj] at hspeceq
    rw [hscore i hi, hscore j hj] at heq
    rw [hrank i hi, hrank j hj, ← hspeceq]
    have hpi := countKeyBefore_lt_group_length keys scores i
      (rows.getD i default).speciality hsl (hklen ▸ hi) (hkey i hi)
    have hvi := selectGroup_getD_countKeyBefore keys scores i
      (rows.getD i default).speciality hsl (hklen ▸ hi) (hkey i hi)
    have hvj := selectGroup_getD_countKeyBefore keys scores j
      (rows.getD i default).speciality hsl (hklen ▸ hj)
      (by rw [hkey j hj, hspeceq])
    have hmono := countKeyBefore_strict_mono keys i j
      (rows.getD i default).speciality hij (hklen ▸ hi) (hkey i hi)
    apply rankFirstDesc_lt_of_eq_of_lt hpi hmono
    rw [hvi, hvj]
    exact heq
  · intro i m hi h1m hm
    rw [hol] at hi
    rw [hspec i hi, hdept] at hm
    obtain ⟨p, hp, hpm⟩ := rankFirstDesc_surjOn
      (selectGroup keys scores (rows.getD i default).speciality) m h1m hm
    obtain ⟨j, hj, hkj, hcj⟩ := exists_index_of_group_pos keys scores
      (rows.getD i default).speciality p hsl hp
    have hj2 : j < rows.length := hklen ▸ hj
    have hkeyj : (rows.getD j default).speciality =
        (rows.getD i default).speciality := by
      rw [← hkey j hj2, hkj]
    refine ⟨j, ?_, ?_, ?_⟩
    · rw [hol]
      exact hj2
    · rw [hspec j hj2, hspec i hi, hkeyj]
    · rw [hrank j hj2, hkeyj, hcj, hpm]

/-- Inversion of a successful scoring run: the output is `buildOutput` on
the input rows, their Speciality keys and a full score list of the same
length. -/
theorem compute_ok_inversion (df : DataFrame)
    (w vm : Option (List (String × ℚ))) (b : Bool) (out : List ScoredRecord)
    (h : compute_mcda_scores df w vm b = .ok out) :
    ∃ scores : List ℚ, scores.length = df.rows.length ∧
      out = buildOutput df.rows (df.rows.map (fun r => r.speciality))
        scores := by
  unfold compute_mcda_scores at h
  by_cases h1 : missingCols df ≠ []
  · rw [if_pos h1] at h
    exact absurd h (by simp)
  · rw [if_neg h1] at h
    by_cases h2 : weightTotal (w.getD DEFAULT_WEIGHTS) = 0
    · rw [if_pos h2] at h
      exact absurd h (by simp)
    · rw [if_neg h2] at h
      cases hc : dlookup "complexity" (normWeights (w.getD DEFAULT_WEIGHTS)) with
      | none =>
        simp only [hc] at h
        exact absurd h (by simp)
      | some wc =>
        simp only [hc] at h
        cases ha : dlookup "acuity" (normWeights (w.getD DEFAULT_WEIGHTS)) with
        | none =>
        simp only [ha] at h
        exact absurd h (by simp)
        | some wa =>
          simp only [ha] at h
          cases hv : dlookup "vitals" (normWeights (w.getD DEFAULT_WEIGHTS)) with
          | none =>
        simp only [hv] at h
        exact absurd h (by simp)
          | some wv =>
            simp only [hv] at h
            cases hall : allSome (scoresOpt
                (filledColumn (df.rows.map (fun r => r.speciality))
                  (df.rows.map (fun r => r.complexity)) b)
                (filledColumn (df.rows.map (fun r => r.speciality))
                  (df.rows.map (fun r => r.acuity)) b)
                (vitalsScores df.rows (vm.getD DEFAULT_VITALS_ORDER))
                wc wa wv df.rows.length) with
            | none =>
        simp only [hall] at h
        exact absurd h (by simp)
            | some scores =>
              simp only [hall] at h
              refine ⟨scores, ?_, ?_⟩
              · rw [allSome_length hall, scoresOpt_length]
              · exact (Except.ok.inj h).symm

/-- C1: on every batch on which scoring succeeds, the rank column is
well-formed within each department: ranks are exactly the integers 1..N
(N the department's size) — bounded, duplicate-free and attaining every
value — ordered by strictly descending urgency score, with records of
equal score ordered by their input position (earlier record gets the
smaller rank). -/
theorem ranks_are_exactly_one_to_N (df : DataFrame)
    (w vm : Option (List (String × ℚ))) (b : Bool) (out : List ScoredRecord)
    (h : compute_mcda_scores df w vm b = .ok out) :
    RanksWellFormed out := by
  obtain ⟨scores, hlen, rfl⟩ := compute_ok_inversion df w vm b out h
  exact buildOutput_ranks_wf df.rows scores hlen

/-- The concrete output of the example batch. -/
def exOut : List ScoredRecord :=
  match compute_mcda_scores exDF none none true with
  | .ok o => o
  | .error _ => []

/-- Witness for C1 at the example batch. -/
theorem ranks_are_exactly_one_to_N_witness :
    compute_mcda_scores exDF none none true = .ok exOut ∧
      RanksWellFormed exOut := by
  have h : compute_mcda_scores exDF none none true = .ok exOut := by decide
  exact ⟨h, ranks_are_exactly_one_to_N exDF none none true exOut h⟩
